import Mathlib

/-!
Shallow embedding of `datadog/resource_datadog_integration_webhook.go`
(terraform-provider-datadog, webhook integration resource).

Go strings are modelled as `List Char`; Go `*string` pointers as
`Option (List Char)`; a Go `(T, error)` return as the sum type `GoResult`.
Go maps `map[string]string` are modelled as association lists
(`List (List Char × List Char)`) with map-assignment semantics
(`insertKV` replaces an existing key, otherwise appends).
-/

/-- A Go `(value, error)` pair where exactly one side is meaningful:
`.ok` is a nil-error return, `.err` a non-nil error. -/
inductive GoResult (ε α : Type) where
  | err : ε → GoResult ε α
  | ok : α → GoResult ε α
deriving DecidableEq, Repr

/-- Go `strings.Split(s, sep)` for a one-character separator:
`Split("", sep) = [""]`, and every occurrence of the separator splits. -/
def splitOnChar (c : Char) : List Char → List (List Char)
  | [] => [[]]
  | x :: xs =>
    if x = c then [] :: splitOnChar c xs
    else
      match splitOnChar c xs with
      | [] => [[x]]
      | y :: ys => (x :: y) :: ys

/-- Go `strings.Join(parts, sep)`. -/
def goJoin (sep : List Char) : List (List Char) → List Char
  | [] => []
  | [x] => x
  | x :: y :: ys => x ++ sep ++ goJoin sep (y :: ys)

/-- Go `strings.Trim(s, cutset)`: remove leading and trailing characters
belonging to `cut`. -/
def trimChars (cut : List Char) (s : List Char) : List Char :=
  ((s.dropWhile (fun x => x ∈ cut)).reverse.dropWhile (fun x => x ∈ cut)).reverse

/-- Go `strings.TrimLeft(s, " ")`: remove every leading space. -/
def trimLeftSpaces (s : List Char) : List Char :=
  s.dropWhile (fun x => x = ' ')

/-- Go map assignment `m[k] = v`: replace the value of an existing key,
otherwise add the binding. -/
def insertKV (m : List (List Char × List Char)) (k v : List Char) :
    List (List Char × List Char) :=
  match m with
  | [] => [(k, v)]
  | (k', v') :: rest => if k' = k then (k, v) :: rest else (k', v') :: insertKV rest k v

/-- `buildDatadogHeader` (lines 84-92): each pair becomes
`fmt.Sprintf("%s: %s", key, value)` and the lines are joined with `"\n"`.
The Go map iteration order is abstracted by the order of the association
list. -/
def buildDatadogHeader (headers : List (List Char × List Char)) : List Char :=
  goJoin ['\n'] (headers.map (fun p => p.1 ++ ':' :: ' ' :: p.2))

/-- Loop body of `buildTerraformHeader` (lines 152-160): process each line,
splitting on every colon; the key is `split[0]`, the value is
`strings.TrimLeft(strings.Join(split[1:], ""), " ")`; a colon-free line
aborts with an error. The Go error text is
`header not correctly formatted, expected ':' in '<line>'`; the embedding
keeps the message without the quote characters. -/
def processHeaderLines :
    List (List Char) → List (List Char × List Char) →
    GoResult (List Char) (List (List Char × List Char))
  | [], acc => .ok acc
  | line :: rest, acc =>
    if ':' ∈ line then
      processHeaderLines rest
        (insertKV acc ((splitOnChar ':' line).headD [])
          (trimLeftSpaces ((splitOnChar ':' line).tail).flatten))
    else
      .err ("header not correctly formatted, expected colon in ".toList ++ line)

/-- `buildTerraformHeader` (lines 146-164): if the input trimmed of
spaces, tabs and newlines is empty the (empty) map is returned; otherwise
the input is split on newlines and every line is processed. -/
def buildTerraformHeader (datadogHeader : List Char) :
    GoResult (List Char) (List (List Char × List Char)) :=
  if trimChars (' ' :: '\t' :: '\n' :: []) datadogHeader = [] then .ok []
  else processHeaderLines (splitOnChar '\n' datadogHeader) []

/-- Configuration-side webhook spec, the element shape of the `hooks` list
(`getWebhookSchema`, lines 15-43): `name` and `url` are required strings,
the rest is optional.  An `Option` field models presence of the key in the
`map[string]interface{}` that `buildDatadogWebhook` receives. -/
structure TerraformWebhook where
  name : List Char
  url : List Char
  use_custom_payload : Option Bool
  custom_payload : Option (List Char)
  encode_as_form : Option Bool
  headers : Option (List (List Char × List Char))
deriving DecidableEq, Repr

/-- Wire-side record `datadog.Webhook`: every field is a `*string`
(`Option`), booleans travel as text. -/
structure DatadogWebhook where
  Name : Option (List Char)
  URL : Option (List Char)
  UseCustomPayload : Option (List Char)
  CustomPayload : Option (List Char)
  EncodeAsForm : Option (List Char)
  Headers : Option (List Char)
deriving DecidableEq, Repr

/-- Configuration-shaped state produced by the inbound translation
(`buildTerraformWebhooks` loop body, lines 170-200).  `name`, `url` and
`custom_payload` copy the wire pointers, hence `Option`; the parsed
boolean and header fields are present exactly when the wire field was
non-nil. -/
structure TerraformWebhookState where
  name : Option (List Char)
  url : Option (List Char)
  use_custom_payload : Option Bool
  custom_payload : Option (List Char)
  encode_as_form : Option Bool
  headers : Option (List (List Char × List Char))
deriving DecidableEq, Repr

/-- Go `strconv.FormatBool`. -/
def formatBool (b : Bool) : List Char :=
  if b then "true".toList else "false".toList

/-- Go `strconv.ParseBool`: accepts exactly
`1, t, T, TRUE, true, True, 0, f, F, FALSE, false, False`. -/
def parseBool (s : List Char) : GoResult (List Char) Bool :=
  if s = "1".toList ∨ s = "t".toList ∨ s = "T".toList ∨
      s = "TRUE".toList ∨ s = "true".toList ∨ s = "True".toList then .ok true
  else if s = "0".toList ∨ s = "f".toList ∨ s = "F".toList ∨
      s = "FALSE".toList ∨ s = "false".toList ∨ s = "False".toList then .ok false
  else .err ("strconv.ParseBool: parsing \"".toList ++ s ++ "\": invalid syntax".toList)

/-- `buildDatadogWebhook` (lines 94-117): `name` and `url` always set;
each optional field is copied only when the configuration key is present,
booleans via `strconv.FormatBool`, headers via `buildDatadogHeader`. -/
def buildDatadogWebhook (t : TerraformWebhook) : DatadogWebhook :=
  { Name := some t.name
    URL := some t.url
    UseCustomPayload := t.use_custom_payload.map formatBool
    CustomPayload := t.custom_payload
    EncodeAsForm := t.encode_as_form.map formatBool
    Headers := t.headers.map buildDatadogHeader }

/-- The `if field != nil { val, err := strconv.ParseBool(*field); ... }`
pattern of the inbound loop: an absent wire field stays absent, a present
one must parse. -/
def parseOptBool (o : Option (List Char)) : GoResult (List Char) (Option Bool) :=
  match o with
  | none => .ok none
  | some s =>
    match parseBool s with
    | .err e => .err e
    | .ok b => .ok (some b)

/-- The `if datadogWebhook.Headers != nil { ... buildTerraformHeader ... }`
step of the inbound loop. -/
def decodeOptHeaders (o : Option (List Char)) :
    GoResult (List Char) (Option (List (List Char × List Char))) :=
  match o with
  | none => .ok none
  | some s =>
    match buildTerraformHeader s with
    | .err e => .err e
    | .ok m => .ok (some m)

/-- Body of the `buildTerraformWebhooks` loop for a single wire record
(lines 170-200): copy `name`/`url`, parse `UseCustomPayload` and
`EncodeAsForm` with `strconv.ParseBool`, decode `Headers` with
`buildTerraformHeader`; the first failure aborts with that error. -/
def buildTerraformWebhookOne (d : DatadogWebhook) :
    GoResult (List Char) TerraformWebhookState :=
  match parseOptBool d.UseCustomPayload with
  | .err e => .err e
  | .ok u =>
    match parseOptBool d.EncodeAsForm with
    | .err e => .err e
    | .ok f =>
      match decodeOptHeaders d.Headers with
      | .err e => .err e
      | .ok hs =>
        .ok { name := d.Name
              url := d.URL
              use_custom_payload := u
              custom_payload := d.CustomPayload
              encode_as_form := f
              headers := hs }

/-- `buildTerraformWebhooks` (lines 166-206): translate each wire record
in order; the first record that fails aborts the whole translation. -/
def buildTerraformWebhooks (ds : List DatadogWebhook) :
    GoResult (List Char) (List TerraformWebhookState) :=
  match ds with
  | [] => .ok []
  | d :: rest =>
    match buildTerraformWebhookOne d with
    | .err e => .err e
    | .ok t =>
      match buildTerraformWebhooks rest with
      | .err e => .err e
      | .ok ts => .ok (t :: ts)

/-- `resourceDatadogIntegrationWebhookExists` (lines 68-82).  The argument
is the outcome of `client.GetIntegrationWebhook()`; the result is the Go
pair `(b bool, e error)` with the error modelled as `Option`. -/
def resourceDatadogIntegrationWebhookExists
    (fetch : GoResult (List Char) (List DatadogWebhook)) :
    Bool × Option (List Char) :=
  match fetch with
  | .err e => if e = "Not Found".toList then (false, none) else (false, some e)
  | .ok hooks => (decide (0 < hooks.length), none)

/-- `resourceDatadogIntegrationWebhookRead` (lines 208-222).  `fetch` is
the outcome of `client.GetIntegrationWebhook()`, `old` the local state
before the call; the second component is the local state afterwards
(`d.Set("hooks", ...)` is the only write and is modelled as always
succeeding). -/
def resourceDatadogIntegrationWebhookRead
    (fetch : GoResult (List Char) (List DatadogWebhook))
    (old : List TerraformWebhookState) :
    GoResult (List Char) Unit × List TerraformWebhookState :=
  match fetch with
  | .err e => (.err ("error reading the Webhook integration: ".toList ++ e), old)
  | .ok hooks =>
    match buildTerraformWebhooks hooks with
    | .err e => (.err e, old)
    | .ok ts => (.ok (), ts)

/-- `resourceDatadogIntegrationWebhookPrepareCreateRequest` (lines
119-130): translate every configured hook, in order, into the single
create request. -/
def resourceDatadogIntegrationWebhookPrepareCreateRequest
    (hooks : List TerraformWebhook) : List DatadogWebhook :=
  hooks.map buildDatadogWebhook

/-- The remote collaborator as seen by `create`: the outcome of
`client.CreateIntegrationWebhook` for a given request (`some` = error),
and the outcome of the `client.GetIntegrationWebhook` call that the
follow-up read performs. -/
structure WebhookRemote where
  createResult : List DatadogWebhook → Option (List Char)
  fetchResult : GoResult (List Char) (List DatadogWebhook)

/-- `resourceDatadogIntegrationWebhookCreate` (lines 132-144): build the
request, send it once (the first component of the result is the request
that was sent), wrap a remote failure with the
`error creating a Webhook integration` prefix leaving local state
untouched, and on success delegate to the read. -/
def resourceDatadogIntegrationWebhookCreate
    (hooks : List TerraformWebhook) (remote : WebhookRemote)
    (old : List TerraformWebhookState) :
    List DatadogWebhook × (GoResult (List Char) Unit × List TerraformWebhookState) :=
  let iwebhook := resourceDatadogIntegrationWebhookPrepareCreateRequest hooks
  match remote.createResult iwebhook with
  | some e =>
    (iwebhook, (.err ("error creating a Webhook integration: ".toList ++ e), old))
  | none => (iwebhook, resourceDatadogIntegrationWebhookRead remote.fetchResult old)

/-! ### Basic lemmas about the string primitives -/

theorem splitOnChar_ne_nil (c : Char) (l : List Char) : splitOnChar c l ≠ [] := by
  induction l with
  | nil => simp [splitOnChar]
  | cons x xs ih =>
    by_cases hx : x = c
    · simp [splitOnChar, hx]
    · cases h : splitOnChar c xs with
      | nil => simp [splitOnChar, hx, h]
      | cons y ys => simp [splitOnChar, hx, h]

theorem splitOnChar_not_mem (c : Char) (l : List Char) (h : c ∉ l) :
    splitOnChar c l = [l] := by
  induction l with
  | nil => rfl
  | cons x xs ih =>
    rw [List.mem_cons, not_or] at h
    simp [splitOnChar, Ne.symm h.1, ih h.2]

theorem splitOnChar_append (c : Char) (a b : List Char) (h : c ∉ a) :
    splitOnChar c (a ++ c :: b) = a :: splitOnChar c b := by
  induction a with
  | nil => simp [splitOnChar]
  | cons x xs ih =>
    rw [List.mem_cons, not_or] at h
    simp [splitOnChar, Ne.symm h.1, ih h.2]

theorem goJoin_cons_cons (sep : List Char) (x y : List Char) (ys : List (List Char)) :
    goJoin sep (x :: y :: ys) = x ++ sep ++ goJoin sep (y :: ys) := rfl

theorem splitOnChar_goJoin (c : Char) (ls : List (List Char))
    (h : ∀ l ∈ ls, c ∉ l) (hne : ls ≠ []) :
    splitOnChar c (goJoin [c] ls) = ls := by
  induction ls with
  | nil => exact absurd rfl hne
  | cons x xs ih =>
    cases xs with
    | nil => exact splitOnChar_not_mem c x (h x (List.mem_cons_self x []))
    | cons y ys =>
      rw [goJoin_cons_cons]
      have : x ++ [c] ++ goJoin [c] (y :: ys) = x ++ c :: goJoin [c] (y :: ys) := by
        simp
      rw [this, splitOnChar_append c x _ (h x (List.mem_cons_self x _)),
        ih (fun l hl => h l (List.mem_cons_of_mem x hl)) (by simp)]

theorem mem_dropWhile (p : Char → Bool) (l : List Char) (c : Char)
    (hc : c ∈ l) (hp : p c = false) : c ∈ l.dropWhile p := by
  induction l with
  | nil => cases hc
  | cons x xs ih =>
    by_cases hx : p x
    · rw [List.dropWhile_cons_of_pos hx]
      rcases List.mem_cons.mp hc with h | h
      · subst h; rw [hp] at hx; cases hx
      · exact ih h
    · rw [List.dropWhile_cons_of_neg hx]
      exact hc

theorem trimChars_ne_nil (cut s : List Char) (c : Char)
    (hc : c ∈ s) (hcut : c ∉ cut) : trimChars cut s ≠ [] := by
  have hp : (fun x => decide (x ∈ cut)) c = false := by simpa using hcut
  have h1 := mem_dropWhile (fun x => decide (x ∈ cut)) s c hc hp
  have h2 := mem_dropWhile (fun x => decide (x ∈ cut))
    (s.dropWhile (fun x => decide (x ∈ cut))).reverse c (List.mem_reverse.mpr h1) hp
  exact List.ne_nil_of_mem (List.mem_reverse.mpr h2)

theorem trimChars_eq_nil (cut s : List Char) (h : ∀ x ∈ s, x ∈ cut) :
    trimChars cut s = [] := by
  have h1 : s.dropWhile (fun x => decide (x ∈ cut)) = [] :=
    List.dropWhile_eq_nil_iff.mpr (by simpa using h)
  simp [trimChars, h1]

theorem splitOnChar_headD (c : Char) (l : List Char) :
    (splitOnChar c l).headD [] = l.takeWhile (fun x => x ≠ c) := by
  induction l with
  | nil => rfl
  | cons x xs ih =>
    by_cases hx : x = c
    · subst hx; simp [splitOnChar, List.takeWhile_cons]
    · cases h : splitOnChar c xs with
      | nil => exact absurd h (splitOnChar_ne_nil c xs)
      | cons y ys =>
        have ih' := ih
        rw [h] at ih'
        simp only [List.headD_cons] at ih'
        simp [splitOnChar, hx, h, List.takeWhile_cons, ih']

theorem flatten_splitOnChar (c : Char) (l : List Char) :
    (splitOnChar c l).flatten = l.filter (fun x => x ≠ c) := by
  induction l with
  | nil => rfl
  | cons x xs ih =>
    by_cases hx : x = c
    · subst hx
      simp [splitOnChar, List.filter_cons, List.flatten_cons, ih]
    · cases h : splitOnChar c xs with
      | nil => exact absurd h (splitOnChar_ne_nil c xs)
      | cons y ys =>
        have ih' := ih
        rw [h, List.flatten_cons] at ih'
        have hs : splitOnChar c (x :: xs) = (x :: y) :: ys := by
          simp [splitOnChar, hx, h]
        rw [hs, List.flatten_cons, List.filter_cons]
        simp only [List.cons_append]
        rw [ih']
        simp [hx]

theorem splitOnChar_tail_flatten (c : Char) (l : List Char) :
    ((splitOnChar c l).tail).flatten
      = ((l.dropWhile (fun x => x ≠ c)).tail).filter (fun x => x ≠ c) := by
  induction l with
  | nil => rfl
  | cons x xs ih =>
    by_cases hx : x = c
    · subst hx
      have hd : (x :: xs).dropWhile (fun y => decide (y ≠ x)) = x :: xs := by
        rw [List.dropWhile_cons_of_neg (by simp)]
      simp [splitOnChar, hd, flatten_splitOnChar]
    · cases h : splitOnChar c xs with
      | nil => exact absurd h (splitOnChar_ne_nil c xs)
      | cons y ys =>
        have ih' := ih
        rw [h] at ih'
        have hs : splitOnChar c (x :: xs) = (x :: y) :: ys := by
          simp [splitOnChar, hx, h]
        have hd : (x :: xs).dropWhile (fun y => decide (y ≠ c))
            = xs.dropWhile (fun y => decide (y ≠ c)) := by
          rw [List.dropWhile_cons_of_pos (by simpa using hx)]
        rw [hs, hd]
        simpa using ih'

theorem insertKV_append (acc : List (List Char × List Char)) (k v : List Char)
    (h : k ∉ acc.map Prod.fst) : insertKV acc k v = acc ++ [(k, v)] := by
  induction acc with
  | nil => rfl
  | cons p rest ih =>
    obtain ⟨k', v'⟩ := p
    rw [List.map_cons, List.mem_cons, not_or] at h
    simp [insertKV, Ne.symm h.1, ih h.2]

theorem trimLeftSpaces_of_head (v : List Char) (h : v.head? ≠ some ' ') :
    trimLeftSpaces v = v := by
  cases v with
  | nil => rfl
  | cons x xs =>
    have hx : ¬(x = ' ') := by
      intro hx; exact h (by simp [hx])
    simp [trimLeftSpaces, List.dropWhile_cons, hx]

theorem splitOnChar_colon_line (k v : List Char) (hk : ':' ∉ k) (hv : ':' ∉ v) :
    splitOnChar ':' (k ++ ':' :: ' ' :: v) = [k, ' ' :: v] := by
  have hsv : (':' : Char) ∉ ' ' :: v := by
    rw [List.mem_cons, not_or]
    exact ⟨by decide, hv⟩
  rw [splitOnChar_append ':' k (' ' :: v) hk, splitOnChar_not_mem ':' _ hsv]

/-- The conditions on one header key/value pair under which the
newline-joined `Key: Value` encoding decodes back to the pair: no colon
and no newline on either side, and a value that does not begin with a
space (`strings.TrimLeft(..., " ")` would eat every leading space). -/
def goodPair (p : List Char × List Char) : Prop :=
  ':' ∉ p.1 ∧ '\n' ∉ p.1 ∧ ':' ∉ p.2 ∧ '\n' ∉ p.2 ∧ p.2.head? ≠ some ' '

instance (p : List Char × List Char) : Decidable (goodPair p) := by
  unfold goodPair; infer_instance

theorem processHeaderLines_encode (m : List (List Char × List Char))
    (acc : List (List Char × List Char))
    (hgood : ∀ p ∈ m, goodPair p)
    (hnodup : (m.map Prod.fst).Nodup)
    (hdisj : ∀ p ∈ m, p.1 ∉ acc.map Prod.fst) :
    processHeaderLines (m.map (fun p => p.1 ++ ':' :: ' ' :: p.2)) acc
      = .ok (acc ++ m) := by
  induction m generalizing acc with
  | nil => simp [processHeaderLines]
  | cons p rest ih =>
    obtain ⟨k, v⟩ := p
    obtain ⟨hk, hkn, hv, hvn, hsp⟩ := hgood (k, v) (List.mem_cons_self _ _)
    rw [List.map_cons, List.nodup_cons] at hnodup
    have hcol : (':' : Char) ∈ k ++ ':' :: ' ' :: v := by simp
    have hline : processHeaderLines ((k ++ ':' :: ' ' :: v) :: rest.map (fun p => p.1 ++ ':' :: ' ' :: p.2)) acc
        = processHeaderLines (rest.map (fun p => p.1 ++ ':' :: ' ' :: p.2))
            (insertKV acc ((splitOnChar ':' (k ++ ':' :: ' ' :: v)).headD [])
              (trimLeftSpaces ((splitOnChar ':' (k ++ ':' :: ' ' :: v)).tail).flatten)) := by
      simp [processHeaderLines, hcol]
    rw [List.map_cons, hline, splitOnChar_colon_line k v hk hv]
    have hkey : ([k, ' ' :: v].headD []) = k := rfl
    have hval : trimLeftSpaces ([k, ' ' :: v].tail).flatten = v := by
      have h1 : ([k, ' ' :: v].tail).flatten = ' ' :: v := by simp
      rw [h1]
      have h2 : trimLeftSpaces (' ' :: v) = trimLeftSpaces v := by
        simp [trimLeftSpaces, List.dropWhile_cons]
      rw [h2, trimLeftSpaces_of_head v hsp]
    rw [hkey, hval, insertKV_append acc k v (hdisj (k, v) (List.mem_cons_self _ _))]
    have hdisj' : ∀ q ∈ rest, q.1 ∉ (acc ++ [(k, v)]).map Prod.fst := by
      intro q hq
      rw [List.map_append, List.mem_append, not_or]
      refine ⟨hdisj q (List.mem_cons_of_mem _ hq), ?_⟩
      simp only [List.map_cons, List.map_nil, List.mem_singleton]
      intro hqk
      have hmem : q.1 ∈ rest.map Prod.fst := List.mem_map_of_mem Prod.fst hq
      rw [hqk] at hmem
      exact hnodup.1 hmem
    rw [ih (acc ++ [(k, v)]) (fun q hq => hgood q (List.mem_cons_of_mem _ hq))
      hnodup.2 hdisj']
    simp

/-- Encode/decode round trip for header mappings: distinct keys, no colon
or newline anywhere, values not beginning with a space. -/
theorem header_roundtrip_aux (m : List (List Char × List Char))
    (hgood : ∀ p ∈ m, goodPair p)
    (hnodup : (m.map Prod.fst).Nodup) :
    buildTerraformHeader (buildDatadogHeader m) = .ok m := by
  cases m with
  | nil => decide
  | cons p rest =>
    obtain ⟨k, v⟩ := p
    have hcol_line : (':' : Char) ∈ k ++ ':' :: ' ' :: v := by simp
    have hcol : (':' : Char) ∈ buildDatadogHeader ((k, v) :: rest) := by
      unfold buildDatadogHeader
      rw [List.map_cons]
      cases hr : rest.map (fun p => p.1 ++ ':' :: ' ' :: p.2) with
      | nil => simp [goJoin]
      | cons q qs =>
        rw [goJoin_cons_cons]
        exact List.mem_append_left _ (List.mem_append_left _ hcol_line)
    have htrim := trimChars_ne_nil (' ' :: '\t' :: '\n' :: []) _ ':' hcol (by decide)
    unfold buildTerraformHeader
    rw [if_neg htrim]
    have hlines : splitOnChar '\n' (buildDatadogHeader ((k, v) :: rest))
        = ((k, v) :: rest).map (fun p => p.1 ++ ':' :: ' ' :: p.2) := by
      unfold buildDatadogHeader
      apply splitOnChar_goJoin
      · intro l hl
        obtain ⟨q, hq, rfl⟩ := List.mem_map.mp hl
        obtain ⟨_, hqn, _, hqvn, _⟩ := hgood q hq
        simp [hqn, hqvn]
      · simp
    rw [hlines,
      processHeaderLines_encode ((k, v) :: rest) [] hgood hnodup (by simp)]
    simp

theorem processHeaderLines_err (lines : List (List Char))
    (acc : List (List Char × List Char))
    (hbad : ∃ l ∈ lines, ':' ∉ l) :
    ∃ bad ∈ lines, ':' ∉ bad ∧
      processHeaderLines lines acc
        = .err ("header not correctly formatted, expected colon in ".toList ++ bad) := by
  induction lines generalizing acc with
  | nil =>
    obtain ⟨l, hl, _⟩ := hbad
    cases hl
  | cons line rest ih =>
    by_cases hc : ':' ∈ line
    · have hbad' : ∃ l ∈ rest, ':' ∉ l := by
        obtain ⟨l, hl, hnc⟩ := hbad
        rcases List.mem_cons.mp hl with rfl | hl'
        · exact absurd hc hnc
        · exact ⟨l, hl', hnc⟩
      obtain ⟨bad, hmem, hnc, hres⟩ :=
        ih (insertKV acc ((splitOnChar ':' line).headD [])
          (trimLeftSpaces ((splitOnChar ':' line).tail).flatten)) hbad'
      refine ⟨bad, List.mem_cons_of_mem _ hmem, hnc, ?_⟩
      have heq : processHeaderLines (line :: rest) acc
          = processHeaderLines rest
            (insertKV acc ((splitOnChar ':' line).headD [])
              (trimLeftSpaces ((splitOnChar ':' line).tail).flatten)) := by
        simp [processHeaderLines, hc]
      rw [heq, hres]
    · exact ⟨line, List.mem_cons_self _ _, hc, by simp [processHeaderLines, hc]⟩

/-- A decode input that is not whitespace-only and has a colon-free line
fails, naming such a line in the error. -/
theorem buildTerraformHeader_malformed_aux (s : List Char)
    (hws : ¬ ∀ c ∈ s, c = ' ' ∨ c = '\t' ∨ c = '\n')
    (hbad : ∃ l ∈ splitOnChar '\n' s, ':' ∉ l) :
    ∃ bad ∈ splitOnChar '\n' s, ':' ∉ bad ∧
      buildTerraformHeader s
        = .err ("header not correctly formatted, expected colon in ".toList ++ bad) := by
  push_neg at hws
  obtain ⟨c, hcs, hcw⟩ := hws
  have htrim : trimChars (' ' :: '\t' :: '\n' :: []) s ≠ [] := by
    refine trimChars_ne_nil _ s c hcs ?_
    intro hmem
    simp only [List.mem_cons, List.not_mem_nil, or_false] at hmem
    rcases hmem with h | h | h
    exacts [hcw.1 h, hcw.2.1 h, hcw.2.2 h]
  unfold buildTerraformHeader
  rw [if_neg htrim]
  exact processHeaderLines_err _ [] hbad

/-- Decode of a single header line that does contain a colon: the key is
the text before the first colon, the value is the remaining text with
every colon removed and then every leading space removed. -/
theorem buildTerraformHeader_single_line (l : List Char)
    (hc : ':' ∈ l) (hn : '\n' ∉ l) :
    buildTerraformHeader l
      = .ok [(l.takeWhile (fun x => x ≠ ':'),
          trimLeftSpaces (((l.dropWhile (fun x => x ≠ ':')).tail).filter
            (fun x => x ≠ ':')))] := by
  have htrim : trimChars (' ' :: '\t' :: '\n' :: []) l ≠ [] :=
    trimChars_ne_nil _ l ':' hc (by decide)
  unfold buildTerraformHeader
  rw [if_neg htrim, splitOnChar_not_mem '\n' l hn]
  have h1 : processHeaderLines [l] []
      = .ok (insertKV [] ((splitOnChar ':' l).headD [])
          (trimLeftSpaces ((splitOnChar ':' l).tail).flatten)) := by
    simp [processHeaderLines, hc]
  rw [h1, splitOnChar_headD ':' l, splitOnChar_tail_flatten ':' l]
  rfl

/-- A configured hook viewed as the state shape the inbound translation
produces (`name`/`url` and `custom_payload` become the non-nil wire
pointers). -/
def toTerraformState (t : TerraformWebhook) : TerraformWebhookState :=
  { name := some t.name
    url := some t.url
    use_custom_payload := t.use_custom_payload
    custom_payload := t.custom_payload
    encode_as_form := t.encode_as_form
    headers := t.headers }

/-- Round-trippable header mapping: pairwise-distinct keys and every pair
`goodPair`. -/
def goodHeaders (m : List (List Char × List Char)) : Prop :=
  (∀ p ∈ m, goodPair p) ∧ (m.map Prod.fst).Nodup

instance (m : List (List Char × List Char)) : Decidable (goodHeaders m) := by
  unfold goodHeaders; infer_instance

/-- A hook whose optional header mapping (when present) is
round-trippable. -/
def goodHook (t : TerraformWebhook) : Prop :=
  match t.headers with
  | none => True
  | some m => goodHeaders m

instance (t : TerraformWebhook) : Decidable (goodHook t) := by
  unfold goodHook
  cases ht : t.headers
  · exact inferInstance
  · exact inferInstance

theorem parseOptBool_formatBool (o : Option Bool) :
    parseOptBool (o.map formatBool) = .ok o := by
  cases o with
  | none => rfl
  | some b => cases b <;> decide

theorem decodeOptHeaders_encode (o : Option (List (List Char × List Char)))
    (h : ∀ m, o = some m → goodHeaders m) :
    decodeOptHeaders (o.map buildDatadogHeader) = .ok o := by
  cases o with
  | none => rfl
  | some m =>
    obtain ⟨h1, h2⟩ := h m rfl
    simp [decodeOptHeaders, header_roundtrip_aux m h1 h2]

theorem webhook_roundtrip_one (t : TerraformWebhook) (h : goodHook t) :
    buildTerraformWebhookOne (buildDatadogWebhook t) = .ok (toTerraformState t) := by
  have hh : ∀ m, t.headers = some m → goodHeaders m := by
    intro m hm
    unfold goodHook at h
    rw [hm] at h
    exact h
  simp [buildTerraformWebhookOne, buildDatadogWebhook, parseOptBool_formatBool,
    decodeOptHeaders_encode t.headers hh, toTerraformState]

theorem webhook_roundtrip_list (L : List TerraformWebhook)
    (h : ∀ t ∈ L, goodHook t) :
    buildTerraformWebhooks (L.map buildDatadogWebhook)
      = .ok (L.map toTerraformState) := by
  induction L with
  | nil => rfl
  | cons t rest ih =>
    simp [buildTerraformWebhooks,
      webhook_roundtrip_one t (h t (List.mem_cons_self _ _)),
      ih (fun q hq => h q (List.mem_cons_of_mem _ hq))]

-- sanity checks of the embedding on concrete inputs
example : buildTerraformHeader "Content-Type: application/json".toList
    = .ok [("Content-Type".toList, "application/json".toList)] := by decide
example : buildTerraformHeader "X-Foo".toList
    = .err "header not correctly formatted, expected colon in X-Foo".toList := by decide
example : buildTerraformHeader "".toList = .ok [] := by decide
example : buildDatadogHeader [("a".toList, "b".toList), ("c".toList, "d".toList)]
    = "a: b\nc: d".toList := by decide

/-! ### Claims -/

/-- C1 (counterexample): the claim as stated fails.  The mapping
`{"a": " b"}` has no colon and no newline in its key or value, yet
decoding its encoded form yields `{"a": "b"}`: the decoder strips every
leading space of the value, not just the one the encoder inserted. -/
theorem C1_counterexample :
    ':' ∉ ['a'] ∧ '\n' ∉ ['a'] ∧ ':' ∉ [' ', 'b'] ∧ '\n' ∉ [' ', 'b'] ∧
    buildTerraformHeader (buildDatadogHeader [(['a'], [' ', 'b'])])
      = .ok [(['a'], ['b'])] ∧
    ([(['a'], ['b'])] : List (List Char × List Char)) ≠ [(['a'], [' ', 'b'])] := by
  decide

/-- C1 (amended): for every header mapping whose keys and values contain
no colon and no newline characters AND whose values do not begin with a
space character (keys pairwise distinct, as in a Go map), decoding the
encoded form returns exactly the mapping:
`buildTerraformHeader (buildDatadogHeader m) = .ok m`. -/
theorem C1_header_decode_encode_roundtrip (m : List (List Char × List Char))
    (h : goodHeaders m) :
    buildTerraformHeader (buildDatadogHeader m) = .ok m :=
  header_roundtrip_aux m h.1 h.2

theorem C1_header_decode_encode_roundtrip_witness :
    buildTerraformHeader
        (buildDatadogHeader [(['a'], ['b']), (['c'], ['d', ' ', 'e'])])
      = .ok [(['a'], ['b']), (['c'], ['d', ' ', 'e'])] :=
  C1_header_decode_encode_roundtrip [(['a'], ['b']), (['c'], ['d', ' ', 'e'])]
    (by decide)

/-- The key the claim predicts for a header line: the text before the
first colon (this part matches the code). -/
def claimHeaderKey (l : List Char) : List Char :=
  l.takeWhile (fun x => x ≠ ':')

/-- Modelled from the claim's words for C2: the value is everything after
the first colon, with exactly one leading space removed if one is
present. -/
def claimHeaderValue (l : List Char) : List Char :=
  match (l.dropWhile (fun x => x ≠ ':')).tail with
  | ' ' :: rest => rest
  | v => v

/-- The value the code actually produces for a header line: the text
after the first colon with every remaining colon removed
(`strings.Join(split[1:], "")`) and then every leading space removed
(`strings.TrimLeft(..., " ")`). -/
def codeHeaderValue (l : List Char) : List Char :=
  trimLeftSpaces (((l.dropWhile (fun x => x ≠ ':')).tail).filter (fun x => x ≠ ':'))

/-- C2 (counterexample): the claim as stated fails.  For the line
`k: a:b` the claim predicts the value `a:b` (everything after the first
colon, one leading space removed), but the code joins the colon-split
segments with the empty string and produces `ab`. -/
theorem C2_counterexample :
    buildTerraformHeader ['k', ':', ' ', 'a', ':', 'b']
      = .ok [(['k'], ['a', 'b'])] ∧
    claimHeaderValue ['k', ':', ' ', 'a', ':', 'b'] = ['a', ':', 'b'] ∧
    (['a', 'b'] : List Char) ≠ ['a', ':', 'b'] := by
  decide

/-- C2 (amended): for every header line containing at least one colon
(and no newline), decoding produces the key as the text before the first
colon, and the value as the text after the first colon with every colon
character removed and then every leading space removed. -/
theorem C2_header_line_decode (l : List Char) (hc : ':' ∈ l) (hn : '\n' ∉ l) :
    buildTerraformHeader l = .ok [(claimHeaderKey l, codeHeaderValue l)] :=
  buildTerraformHeader_single_line l hc hn

theorem C2_header_line_decode_witness :
    buildTerraformHeader ['a', ':', ' ', 'b']
      = .ok [(claimHeaderKey ['a', ':', ' ', 'b'],
          codeHeaderValue ['a', ':', ' ', 'b'])] :=
  C2_header_line_decode ['a', ':', ' ', 'b'] (by decide) (by decide)

/-- C6 (counterexample): the claim as stated fails.  The input `" "`
(one space) consists of a single non-empty line with no colon, yet
decoding succeeds with the empty mapping because the whole input trims
to the empty string. -/
theorem C6_counterexample :
    buildTerraformHeader [' '] = .ok [] ∧
    splitOnChar '\n' [' '] = [[' ']] ∧
    ([' '] : List Char) ≠ [] ∧ ':' ∉ [' '] := by
  decide

/-- C6 (amended): for every input string that does not consist solely of
spaces, tabs and newlines, if some line has no colon then decoding fails
with an error that contains (identifies) such a line, rather than
returning a mapping. -/
theorem C6_malformed_line_error (s : List Char)
    (hws : ¬ ∀ c ∈ s, c = ' ' ∨ c = '\t' ∨ c = '\n')
    (hbad : ∃ l ∈ splitOnChar '\n' s, ':' ∉ l) :
    ∃ bad ∈ splitOnChar '\n' s, ':' ∉ bad ∧
      buildTerraformHeader s
        = .err ("header not correctly formatted, expected colon in ".toList ++ bad) :=
  buildTerraformHeader_malformed_aux s hws hbad

theorem C6_malformed_line_error_witness :
    buildTerraformHeader "X-Foo".toList
      = .err "header not correctly formatted, expected colon in X-Foo".toList := by
  obtain ⟨bad, hmem, _, heq⟩ :=
    C6_malformed_line_error "X-Foo".toList (by decide) (by decide)
  rw [show splitOnChar '\n' "X-Foo".toList = ["X-Foo".toList] by decide] at hmem
  rw [List.mem_singleton] at hmem
  rw [hmem] at heq
  exact heq.trans (by decide)

/-- C10: decoding any wire header string made only of spaces, tabs and
newlines (including the empty string) succeeds with the empty mapping,
even though each of its lines lacks a colon. -/
theorem C10_whitespace_header_ok (s : List Char)
    (h : ∀ c ∈ s, c = ' ' ∨ c = '\t' ∨ c = '\n') :
    buildTerraformHeader s = .ok [] := by
  have htrim : trimChars (' ' :: '\t' :: '\n' :: []) s = [] := by
    apply trimChars_eq_nil
    intro x hx
    rcases h x hx with h1 | h1 | h1 <;> simp [h1]
  simp [buildTerraformHeader, htrim]

theorem C10_whitespace_header_ok_witness :
    buildTerraformHeader [' ', '\t', '\n', ' ', '\n'] = .ok [] :=
  C10_whitespace_header_ok [' ', '\t', '\n', ' ', '\n'] (by decide)

/-- C3 (counterexample): the claim as stated fails.  The single hook with
headers `{"a": " b"}` (keys and values free of colon and newline, no
boolean fields) does not survive the outbound-then-inbound round trip:
the decoded header value loses its leading space. -/
theorem C3_counterexample :
    buildTerraformWebhooks
        (([({ name := ['n'], url := ['u'], use_custom_payload := none,
              custom_payload := none, encode_as_form := none,
              headers := some [(['a'], [' ', 'b'])] } : TerraformWebhook)]).map
          buildDatadogWebhook)
      = .ok [{ name := some ['n'], url := some ['u'], use_custom_payload := none,
               custom_payload := none, encode_as_form := none,
               headers := some [(['a'], ['b'])] }] ∧
    ({ name := some ['n'], url := some ['u'], use_custom_payload := none,
       custom_payload := none, encode_as_form := none,
       headers := some [(['a'], ['b'])] } : TerraformWebhookState)
      ≠ toTerraformState
          { name := ['n'], url := ['u'], use_custom_payload := none,
            custom_payload := none, encode_as_form := none,
            headers := some [(['a'], [' ', 'b'])] } := by
  decide

/-- C3 (amended): for every list of webhook specs whose header mappings
(when present) have pairwise-distinct keys, no colon or newline in keys
or values, AND no value beginning with a space, translating outbound
through `buildDatadogWebhook` and inbound through
`buildTerraformWebhooks` reproduces the list field-for-field, in order
(names, urls and `custom_payload` reappearing behind the non-nil wire
pointers). -/
theorem C3_webhook_roundtrip (L : List TerraformWebhook)
    (h : ∀ t ∈ L, goodHook t) :
    buildTerraformWebhooks (L.map buildDatadogWebhook)
      = .ok (L.map toTerraformState) :=
  webhook_roundtrip_list L h

theorem C3_webhook_roundtrip_witness :
    buildTerraformWebhooks
        (([({ name := ['n'], url := ['u'], use_custom_payload := some true,
              custom_payload := some ['p'], encode_as_form := some false,
              headers := some [(['a'], ['b']), (['c'], ['d'])] } : TerraformWebhook),
           ({ name := ['m'], url := ['v'], use_custom_payload := none,
              custom_payload := none, encode_as_form := none,
              headers := none } : TerraformWebhook)]).map buildDatadogWebhook)
      = .ok
          (([({ name := ['n'], url := ['u'], use_custom_payload := some true,
                custom_payload := some ['p'], encode_as_form := some false,
                headers := some [(['a'], ['b']), (['c'], ['d'])] } : TerraformWebhook),
             ({ name := ['m'], url := ['v'], use_custom_payload := none,
                custom_payload := none, encode_as_form := none,
                headers := none } : TerraformWebhook)]).map toTerraformState) :=
  C3_webhook_roundtrip _ (by decide)

/-- C4: the read is atomic with respect to translation failure — when the
fetched wire list fails inbound translation with error `e`, the read
returns exactly that error and leaves the local state untouched (the
state component of the result is the old state; `d.Set` is never
reached). -/
theorem C4_read_translation_atomic (hooks : List DatadogWebhook)
    (old : List TerraformWebhookState) (e : List Char)
    (h : buildTerraformWebhooks hooks = .err e) :
    resourceDatadogIntegrationWebhookRead (.ok hooks) old = (.err e, old) := by
  simp [resourceDatadogIntegrationWebhookRead, h]

theorem C4_read_translation_atomic_witness :
    resourceDatadogIntegrationWebhookRead
        (.ok [{ Name := some ['n'], URL := some ['u'],
                UseCustomPayload := some "yes".toList, CustomPayload := none,
                EncodeAsForm := none, Headers := none }]) []
      = (.err "strconv.ParseBool: parsing \"yes\": invalid syntax".toList, []) :=
  C4_read_translation_atomic _ [] _ (by decide)

/-- C5: for every outcome of the remote fetch, `exists` returns
`(false, nil)` on the `Not Found` error, `(false, err)` on any other
error, and on success `(b, nil)` with `b = true` iff the fetched webhook
list is non-empty. -/
theorem C5_exists_spec (fetch : GoResult (List Char) (List DatadogWebhook)) :
    (fetch = .err "Not Found".toList →
      resourceDatadogIntegrationWebhookExists fetch = (false, none)) ∧
    (∀ e, fetch = .err e → e ≠ "Not Found".toList →
      resourceDatadogIntegrationWebhookExists fetch = (false, some e)) ∧
    (∀ hooks, fetch = .ok hooks →
      ((resourceDatadogIntegrationWebhookExists fetch).1 = true ↔ hooks ≠ []) ∧
      (resourceDatadogIntegrationWebhookExists fetch).2 = none) := by
  refine ⟨?_, ?_, ?_⟩
  · rintro rfl
    simp [resourceDatadogIntegrationWebhookExists]
  · rintro e rfl hne
    simp only [resourceDatadogIntegrationWebhookExists]
    rw [if_neg hne]
  · rintro hooks rfl
    refine ⟨?_, rfl⟩
    simp [resourceDatadogIntegrationWebhookExists, List.length_pos]

theorem C5_exists_spec_witness :
    resourceDatadogIntegrationWebhookExists (.err "boom".toList)
      = (false, some "boom".toList) :=
  (C5_exists_spec (.err "boom".toList)).2.1 "boom".toList rfl (by decide)

/-- C7: the outbound wire record always carries `name` and `url`; each
optional field is present exactly when the configuration field is, the
boolean fields serialized through `strconv.FormatBool` (the strings
`true` / `false`), `custom_payload` verbatim and `headers` through the
encoder. -/
theorem C7_outbound_shape (t : TerraformWebhook) :
    (buildDatadogWebhook t).Name = some t.name ∧
    (buildDatadogWebhook t).URL = some t.url ∧
    ((buildDatadogWebhook t).UseCustomPayload.isSome
      ↔ t.use_custom_payload.isSome) ∧
    (∀ b, t.use_custom_payload = some b →
      (buildDatadogWebhook t).UseCustomPayload
        = some (if b then "true".toList else "false".toList)) ∧
    (buildDatadogWebhook t).CustomPayload = t.custom_payload ∧
    ((buildDatadogWebhook t).EncodeAsForm.isSome ↔ t.encode_as_form.isSome) ∧
    (∀ b, t.encode_as_form = some b →
      (buildDatadogWebhook t).EncodeAsForm
        = some (if b then "true".toList else "false".toList)) ∧
    ((buildDatadogWebhook t).Headers.isSome ↔ t.headers.isSome) := by
  refine ⟨rfl, rfl, ?_, ?_, rfl, ?_, ?_, ?_⟩
  · simp [buildDatadogWebhook]
  · rintro b hb
    simp [buildDatadogWebhook, hb, formatBool]
  · simp [buildDatadogWebhook]
  · rintro b hb
    simp [buildDatadogWebhook, hb, formatBool]
  · simp [buildDatadogWebhook]

theorem C7_outbound_shape_witness :
    (buildDatadogWebhook
        { name := ['n'], url := ['u'], use_custom_payload := some true,
          custom_payload := some ['p'], encode_as_form := some false,
          headers := none }).UseCustomPayload
      = some "true".toList :=
  (C7_outbound_shape
    { name := ['n'], url := ['u'], use_custom_payload := some true,
      custom_payload := some ['p'], encode_as_form := some false,
      headers := none }).2.2.2.1 true rfl

/-- C8: create sends one request equal to the full ordered translated
hook list; a remote failure is returned wrapped with the
`error creating a Webhook integration` prefix with local state untouched;
a remote success hands over to the read, whose result is returned. -/
theorem C8_create_spec (hooks : List TerraformWebhook) (remote : WebhookRemote)
    (old : List TerraformWebhookState) :
    (resourceDatadogIntegrationWebhookCreate hooks remote old).1
      = hooks.map buildDatadogWebhook ∧
    (∀ e, remote.createResult (hooks.map buildDatadogWebhook) = some e →
      (resourceDatadogIntegrationWebhookCreate hooks remote old).2
        = (.err ("error creating a Webhook integration: ".toList ++ e), old)) ∧
    (remote.createResult (hooks.map buildDatadogWebhook) = none →
      (resourceDatadogIntegrationWebhookCreate hooks remote old).2
        = resourceDatadogIntegrationWebhookRead remote.fetchResult old) := by
  refine ⟨?_, ?_, ?_⟩
  · cases h : remote.createResult (hooks.map buildDatadogWebhook) <;>
      simp [resourceDatadogIntegrationWebhookCreate,
        resourceDatadogIntegrationWebhookPrepareCreateRequest, h]
  · rintro e he
    simp [resourceDatadogIntegrationWebhookCreate,
      resourceDatadogIntegrationWebhookPrepareCreateRequest, he]
  · rintro he
    simp [resourceDatadogIntegrationWebhookCreate,
      resourceDatadogIntegrationWebhookPrepareCreateRequest, he]

theorem C8_create_spec_witness :
    (resourceDatadogIntegrationWebhookCreate []
        { createResult := fun _ => some ['b'], fetchResult := .ok [] } []).2
      = (.err ("error creating a Webhook integration: ".toList ++ ['b']), []) :=
  (C8_create_spec []
    { createResult := fun _ => some ['b'], fetchResult := .ok [] } []).2.1
    ['b'] rfl
